import Mathlib

/-!
Shallow embedding of `finance/parse_bog.py` and `finance/calc.py`.

Modelling conventions:
* Python strings are Lean `String`s; all character-level operations
  (strip, lower, substring search, the regex scanners) are implemented on
  `List Char` so that they reduce in the kernel.  Only the ASCII behaviour
  of `str.lower()` is modelled (the bank data is ASCII).
* Python floats are modelled as `ℚ`.  `float(...)` parsing failures and
  other raised exceptions in helper position are modelled as `Option`
  results (`none` = the Python call raises).
* `re.search` scanners are modelled as first-occurrence scanners: the
  pattern literal is located at its first occurrence and the capture
  groups are read off there (the source's regexes would retry at later
  occurrences of the literal when the tail fails to match; no claim
  depends on that corner).
* `datetime.strptime`'s calendar validation is not modelled: the date
  reformatting `dd/mm/yyyy → yyyy-mm-dd` is performed positionally on
  strings that already passed the `\d\d/\d\d/\d\d\d\d` shape test.
* `dedup_key` truncates an md5 digest of `"{date}|{details}"`; the digest
  is modelled by the underlying string itself (identical rows still get
  identical keys; hash collisions are not modelled).
* The persisted stores (ledger CSV, flagged JSON, merchant map JSON,
  dedup key file) are modelled as in-memory lists in a `St` record; a
  command is a pure function `St → St`.  Python `dict`s are association
  lists, `set`s are duplicate-free-by-insertion lists.
-/

namespace Finance

/-! ### Character / string helpers (Python semantics) -/

/-- Whitespace characters recognised by Python's `str.strip()` and by the
regex class `\s` (the ones that can occur in this data, NBSP included). -/
def pySpace (c : Char) : Bool :=
  c == ' ' || c == '\t' || c == '\n' || c == '\r' ||
  c == '\x0b' || c == '\x0c' || c == ' '

/-- Python `str.strip()`. -/
def pyStrip (s : String) : String :=
  ⟨((s.data.dropWhile pySpace).reverse.dropWhile pySpace).reverse⟩

/-- Python `str.lower()` (ASCII range only). -/
def pyLower (s : String) : String :=
  ⟨s.data.map Char.toLower⟩

/-- Python `a.startswith(b)`. -/
def startsWithStr (s pat : String) : Bool :=
  pat.data.isPrefixOf s.data

def containsAux (pat : List Char) : List Char → Bool
  | [] => pat.isEmpty
  | c :: rest => pat.isPrefixOf (c :: rest) || containsAux pat rest

/-- Python `pat in s` (substring containment). -/
def hasSub (s pat : String) : Bool :=
  containsAux pat.data s.data

/-- The suffix of `s` after the first occurrence of the literal `pat`;
`none` when `pat` does not occur. -/
def splitAfterAux (pat : List Char) : List Char → Option (List Char)
  | [] => if pat.isEmpty then some [] else none
  | c :: rest =>
    if pat.isPrefixOf (c :: rest) then some ((c :: rest).drop pat.length)
    else splitAfterAux pat rest

def digitsToNat (l : List Char) : Nat :=
  l.foldl (fun n c => n * 10 + (c.toNat - 48)) 0

def digitsVal (l : List Char) : Option Nat :=
  if l ≠ [] ∧ l.all Char.isDigit then some (digitsToNat l) else none

/-- Python `int(s)`: optional sign, digits, surrounding whitespace
stripped.  (Underscore digit separators are not modelled.) -/
def pyInt (s : String) : Option Int :=
  match (pyStrip s).data with
  | '-' :: rest => (digitsVal rest).map (fun n => -(n : Int))
  | '+' :: rest => (digitsVal rest).map (fun n => (n : Int))
  | l => (digitsVal l).map (fun n => (n : Int))

/-- Python `float(s)` restricted to the plain decimal forms occurring in
this data: optional sign, digits, optional decimal point (exponent,
`inf`/`nan` forms are not modelled).  `none` = `ValueError`. -/
def parseFloat (s : String) : Option ℚ :=
  let core : List Char → Option ℚ := fun l =>
    let intP := l.takeWhile Char.isDigit
    let rest := l.dropWhile Char.isDigit
    match rest with
    | [] => if intP.isEmpty then none else some ((digitsToNat intP : ℚ))
    | '.' :: fr =>
      let frD := fr.takeWhile Char.isDigit
      if (fr.dropWhile Char.isDigit).isEmpty ∧ ¬(intP.isEmpty ∧ frD.isEmpty) then
        some ((digitsToNat intP : ℚ) + (digitsToNat frD : ℚ) / (10 : ℚ) ^ frD.length)
      else none
    | _ => none
  match s.data with
  | '-' :: rest => (core rest).map (fun q => -q)
  | '+' :: rest => core rest
  | l => core l

/-! ### Static tables (`parse_bog.py` module constants) -/

def VALID_CATEGORIES : List String :=
  ["Food", "Transport", "Utilities", "Entertainment",
   "Health", "Kid", "Pets", "Clothes", "Home", "Other", "Rent", "Cash"]

/-- `MCC_CAT`: MCC code → category (insertion-ordered association list). -/
def MCC_CAT : List (String × String) :=
  [("5411", "Food"), ("5441", "Food"), ("5499", "Food"), ("5461", "Food"),
   ("5812", "Food"), ("5814", "Food"),
   ("4215", "Food"),
   ("4121", "Transport"), ("5541", "Transport"),
   ("7523", "Transport"), ("9399", "Transport"),
   ("4814", "Utilities"),
   ("5734", "Entertainment"), ("5816", "Entertainment"), ("5818", "Entertainment"),
   ("7841", "Entertainment"), ("7996", "Entertainment"), ("7922", "Entertainment"),
   ("7011", "Entertainment"), ("4722", "Entertainment"), ("7298", "Entertainment"),
   ("5732", "Entertainment"),
   ("5691", "Clothes"), ("5651", "Clothes"), ("5661", "Clothes"),
   ("5719", "Home"), ("5211", "Home"), ("5013", "Home"),
   ("5995", "Pets"), ("5996", "Pets"),
   ("5945", "Kid"),
   ("5912", "Health"),
   ("5311", "Other"), ("5262", "Other"), ("5192", "Other"), ("5947", "Other"),
   ("5169", "Other"), ("5993", "Other"), ("5992", "Other"),
   ("6300", "Other"), ("6012", "Other")]

/-- `MERCHANT_KW`: category → merchant-name keywords
(insertion-ordered, as Python `dict.items()` iterates it). -/
def MERCHANT_KW : List (String × List String) :=
  [("Food",
    ["nikora", "spar", "marketi", "europroduct", "clean house",
     "mcdon", "kfc", "subway", "pizzeria", "kafe", "cafe ",
     "wrap master", "wendys", "baho", "dunkin", "ori nabiji",
     "jambo coffee", "shukura", "anna smaragdina",
     "veriko tabidze", "giorgi phochkhua", "two dzma", "magniti"]),
   ("Transport",
    ["yandex.go", "bolt taxi", "lukoil", "portal",
     "tbilisi bus", "scooter"]),
   ("Pets", ["zoomart", "animal planet"]),
   ("Utilities", ["magticom", "silknet"]),
   ("Entertainment",
    ["steam", "google", "github", "cursor", "chatgpt", "openai",
     "youtube", "kindle", "gfn.am", "microsoft", "netflix",
     "biletebi", "gulo", "zoommer", "pulman", "pebblehost"]),
   ("Kid", ["robolaboratoria", "top toys", "tbilisi parki"]),
   ("Home", ["jysk", "amboli"]),
   ("Other", ["temu", "ozon", "vape room"])]

def KNOWN_BENEFICIARIES : List (String × String) :=
  [("dalakishvili ana", "Rent")]

/-- Internal / non-expense markers recognised by `should_skip`. -/
def SKIP_TAGS : List String :=
  ["automatic conversion", "zolotayakorona",
   "interest payment", "points exchange", "point redemption",
   "foreign exchange", "incoming transfer", "credit funds"]

/-- Python `dict` lookup on an association list (first matching key). -/
def lookupMap (m : List (String × String)) (k : String) : Option String :=
  (m.find? (fun p => p.1 == k)).map (fun p => p.2)

/-! ### Helpers from `parse_bog.py` -/

/-- `parse_eu_amount`: European format, `'1 234,5' → 1234.5`; empty or
whitespace-only input yields `0.0`.  The chain
`.replace(" ", "").replace("\xa0", "").replace(",", ".")` is performed
characterwise (all three patterns are single characters). -/
def parse_eu_amount (s : String) : Option ℚ :=
  if pyStrip s = "" then some 0
  else
    parseFloat
      ⟨((pyStrip s).data.filter (fun c => !(c == ' ' || c == ' '))).map
        (fun c => if c == ',' then '.' else c)⟩

/-- `dedup_key(date_str, details)`: the md5-digest fingerprint of
`"{date_str}|{details}"`, modelled by that string itself. -/
def dedup_key (date_str details : String) : String :=
  date_str ++ "|" ++ details

/-! ### Extraction scanners (`re.search` patterns of `parse_bog.py`) -/

def numClass (c : Char) : Bool := c.isDigit || c == '.' || c == ','

def isUpperAZ (c : Char) : Bool := 'A' ≤ c && c ≤ 'Z'

/-- `extract_charged`:
`'Payment transaction amount and currency: 24.12 GEL' → (24.12, 'GEL')`,
pattern `Payment transaction amount and currency:\s*([\d.,]+)\s*([A-Z]{3})`;
the numeric group has its commas removed before `float()`. -/
def extract_charged (details : String) : Option (ℚ × String) :=
  match splitAfterAux ("Payment transaction amount and currency:").data details.data with
  | none => none
  | some r =>
    let r2 := r.dropWhile pySpace
    let num := r2.takeWhile numClass
    let r3 := (r2.dropWhile numClass).dropWhile pySpace
    let cur := r3.take 3
    if num ≠ [] ∧ cur.length = 3 ∧ cur.all isUpperAZ then
      match parseFloat ⟨num.filter (fun c => !(c == ','))⟩ with
      | some q => some (q, ⟨cur⟩)
      | none => none
    else none

/-- `extract_leading`: `'Amount: GEL59.49' or 'Amount GEL59.49' → (59.49, 'GEL')`,
pattern `Amount:?\s*([A-Z]{3})\s*([\d.,]+)`. -/
def extract_leading (details : String) : Option (ℚ × String) :=
  match splitAfterAux ("Amount").data details.data with
  | none => none
  | some r =>
    let r1 := match r with
      | ':' :: t => t
      | t => t
    let r2 := r1.dropWhile pySpace
    let cur := r2.take 3
    let num := ((r2.drop 3).dropWhile pySpace).takeWhile numClass
    if cur.length = 3 ∧ cur.all isUpperAZ ∧ num ≠ [] then
      match parseFloat ⟨num.filter (fun c => !(c == ','))⟩ with
      | some q => some (q, ⟨cur⟩)
      | none => none
    else none

/-- Shared scanner for the `X:\s*([^;]+)` patterns (`Merchant:`, `ATM:`,
`Beneficiary:`), with the match stripped.  When only whitespace follows
the literal, the regex backtracks into a whitespace-only group, which
strips to the empty string. -/
def extractSemiField (pat details : String) : Option String :=
  match splitAfterAux pat.data details.data with
  | none => none
  | some r =>
    let ws := r.takeWhile pySpace
    let body := (r.dropWhile pySpace).takeWhile (fun c => !(c == ';'))
    if body ≠ [] then some (pyStrip ⟨body⟩)
    else if ws ≠ [] then some ""
    else none

def isDateShapeL : List Char → Bool
  | [a, b, s₁, c, d, s₂, e, f, g, h] =>
    a.isDigit && b.isDigit && s₁ == '/' && c.isDigit && d.isDigit &&
    s₂ == '/' && e.isDigit && f.isDigit && g.isDigit && h.isDigit
  | _ => false

/-- `re.match(r"\d{2}/\d{2}/\d{4}", s)`: prefix match, trailing
characters allowed. -/
def isDatePrefix (s : String) : Bool := isDateShapeL (s.data.take 10)

/-- The `MCC:(\d+)` part of `extract_merchant_mcc_date`. -/
def extract_mcc (details : String) : Option String :=
  match splitAfterAux ("MCC:").data details.data with
  | none => none
  | some r =>
    let ds := r.takeWhile Char.isDigit
    if ds = [] then none else some ⟨ds⟩

/-- The `Date:\s*(\d{2}/\d{2}/\d{4})` part of `extract_merchant_mcc_date`. -/
def extract_act_date (details : String) : Option String :=
  match splitAfterAux ("Date:").data details.data with
  | none => none
  | some r =>
    let r2 := (r.dropWhile pySpace).take 10
    if isDateShapeL r2 then some ⟨r2⟩ else none

/-- `extract_merchant_mcc_date`: `(merchant, mcc, actual_date)`. -/
def extract_merchant_mcc_date (details : String) :
    Option String × Option String × Option String :=
  (extractSemiField "Merchant:" details, extract_mcc details, extract_act_date details)

/-- `extract_atm`: the `ATM:\s*([^;]+)` field, defaulting to `"ATM"`. -/
def extract_atm (details : String) : String :=
  (extractSemiField "ATM:" details).getD "ATM"

/-- `extract_beneficiary`: the `Beneficiary:\s*([^;]+)` field,
defaulting to `"?"`. -/
def extract_beneficiary (details : String) : String :=
  (extractSemiField "Beneficiary:" details).getD "?"

/-- `extract_transfer_note`: `Details:\s*(.+)` (the `.` stops at a
newline), stripped; `""` when absent. -/
def extract_transfer_note (details : String) : String :=
  match splitAfterAux ("Details:").data details.data with
  | none => ""
  | some r => pyStrip ⟨(r.dropWhile pySpace).takeWhile (fun c => !(c == '\n'))⟩

/-! ### Categorization (`categorize`, `fix_description`, `should_skip`) -/

/-- Python truthiness of an optional string (`None` and `""` are falsy). -/
def strTruthy (o : Option String) : Bool := !(o.getD "" == "")

/-- `categorize(merchant, mcc, details, learned_map) → (category, is_auto)`:
the layered rule cascade — learned map, special detail phrases, merchant
keywords, MCC table, else `(None, False)`. -/
def categorize (merchant mcc : Option String) (details : String)
    (learned : List (String × String)) : Option String × Bool :=
  match (if strTruthy merchant then lookupMap learned (pyLower (merchant.getD "")) else none) with
  | some c => (some c, true)
  | none =>
    let dl := pyLower details
    if hasSub dl "traffic penalty" then (some "Other", true)
    else if hasSub dl "tbilisienergy" then (some "Utilities", true)
    else if hasSub dl "ep georgia supply" then (some "Utilities", true)
    else if hasSub dl "tbilisi bus" then (some "Transport", true)
    else
      match (if strTruthy merchant then
              MERCHANT_KW.find? (fun p => p.2.any (fun kw => hasSub (pyLower (merchant.getD "")) kw))
             else none) with
      | some p => (some p.1, true)
      | none =>
        match (if strTruthy mcc then lookupMap MCC_CAT (mcc.getD "") else none) with
        | some c => (some c, true)
        | none => (none, false)

/-- `fix_description`: human-readable labels for known service patterns. -/
def fix_description (desc details : String) : String :=
  let dl := pyLower details
  if hasSub dl "traffic penalty" then "Traffic Penalty"
  else if hasSub dl "tbilisienergy" then "TbilisiEnergy (electricity)"
  else if hasSub dl "ep georgia supply" then "EP Georgia Supply (utilities)"
  else if hasSub dl "tbilisi bus" then "Tbilisi Bus"
  else desc

/-- `should_skip`: internal / non-expense rows to ignore entirely. -/
def should_skip (details : String) : Bool :=
  SKIP_TAGS.any (fun tag => hasSub (pyLower details) tag)

/-! ### The Transaction record and the core parser (`parse_bog`) -/

structure Tx where
  date : String
  description : String
  amount : ℚ
  currency : String
  category : Option String
  flag : Option String
  dk : String
  merchant : Option String
  mcc : Option String
deriving DecidableEq, Repr

/-- `dd/mm/yyyy → yyyy-mm-dd` (`strptime`/`strftime` round trip;
calendar validation is not modelled). -/
def toISO (s : String) : String :=
  match s.data with
  | a :: b :: '/' :: c :: d :: '/' :: e :: f :: g :: h :: _ =>
    ⟨[e, f, g, h, '-', c, d, '-', a, b]⟩
  | _ => s

/-- Truthiness of the amount slot (`if not amt:` — `None` and `0.0` are
falsy, so a zero extracted amount also falls through). -/
def truthyAmt (o : Option (ℚ × String)) : Bool :=
  match o with
  | some (a, _) => decide (a ≠ 0)
  | none => false

/-- Numeric column `row[i]` via `parse_eu_amount` when present, else `0`.
(An unparsable column aborts the Python run; modelled as `0` here — no
claim touches that corner.) -/
def colAmount (row : List String) (i : Nat) : ℚ :=
  if i < row.length then (parse_eu_amount (row.getD i "")).getD 0 else 0

/-- The `ATM Withdrawal → flag as cash` branch of `parse_bog`: always
produces a Transaction; when neither extractor yields a truthy amount it
falls back to `(abs(gel), "GEL")` for a negative GEL column and to
`(0, "GEL")` otherwise. -/
def withdrawalTx (date_raw details : String) (gel : ℚ) (dk : String) : Tx :=
  let e1 := extract_charged details
  let e2 := if truthyAmt e1 then e1 else extract_leading details
  let ac : ℚ × String :=
    if truthyAmt e2 then e2.getD (0, "GEL")
    else if gel < 0 then (|gel|, "GEL") else (0, "GEL")
  { date := toISO ((extract_act_date details).getD date_raw),
    description := "Cash (ATM: " ++ extract_atm details ++ ")",
    amount := ac.1, currency := ac.2,
    category := none, flag := some "cash", dk := dk,
    merchant := none, mcc := none }

/-- The `Outgoing Transfer` branch of `parse_bog`: `none` models the
`continue` that drops the row when no amount can be resolved. -/
def transferTx (date_raw details : String) (usd gel eur : ℚ) (dk : String) : Option Tx :=
  let beneficiary := extract_beneficiary details
  let note := extract_transfer_note details
  let e := extract_leading details
  let ac? : Option (ℚ × String) :=
    if truthyAmt e then e
    else if usd < 0 then some (|usd|, "USD")
    else if gel < 0 then some (|gel|, "GEL")
    else if eur < 0 then some (|eur|, "EUR")
    else none
  match ac? with
  | none => none
  | some ac =>
    let cf : Option String × Option String :=
      match KNOWN_BENEFICIARIES.find? (fun p => hasSub (pyLower beneficiary) p.1) with
      | some p => (some p.2, none)
      | none => (none, some "transfer")
    some { date := toISO date_raw,
           description := "→ " ++ beneficiary ++
             (if !(note == "") then " (" ++ note ++ ")" else ""),
           amount := ac.1, currency := ac.2,
           category := cf.1, flag := cf.2, dk := dk,
           merchant := none, mcc := none }

/-- The `Regular Payment` branch of `parse_bog`: `none` models the
`continue` that drops the row when no amount can be resolved. -/
def paymentTx (date_raw details : String) (gel usd eur gbp : ℚ) (dk : String) : Option Tx :=
  let e1 := extract_charged details
  let e2 := if truthyAmt e1 then e1 else extract_leading details
  let ac? : Option (ℚ × String) :=
    if truthyAmt e2 then e2
    else if gel < 0 then some (|gel|, "GEL")
    else if usd < 0 then some (|usd|, "USD")
    else if eur < 0 then some (|eur|, "EUR")
    else if gbp < 0 then some (|gbp|, "GBP")
    else none
  match ac? with
  | none => none
  | some ac =>
    let m := extract_merchant_mcc_date details
    let desc0 := if strTruthy m.1 then m.1.getD "" else ⟨details.data.take 60⟩
    some { date := toISO (m.2.2.getD date_raw),
           description := fix_description desc0 details,
           amount := ac.1, currency := ac.2,
           category := none, flag := none, dk := dk,
           merchant := m.1, mcc := m.2.1 }

/-- One iteration of the `parse_bog` row loop: `none` for every
`continue` (short row, non-date first field, internal marker, unmatched
shape, amount-resolution failure), `some tx` when a transaction is
appended. -/
def processRow (row : List String) : Option Tx :=
  if row.length < 2 then none
  else
    let date_raw := pyStrip (row.getD 0 "")
    let details := pyStrip (row.getD 1 "")
    if !(isDatePrefix date_raw) then none
    else if should_skip details then none
    else
      let gel := colAmount row 3
      let usd := colAmount row 4
      let eur := colAmount row 5
      let gbp := colAmount row 6
      let dk := dedup_key date_raw details
      if startsWithStr details "Withdrawal" then
        some (withdrawalTx date_raw details gel dk)
      else if startsWithStr details "Outgoing Transfer" then
        transferTx date_raw details usd gel eur dk
      else if startsWithStr details "Payment" then
        paymentTx date_raw details gel usd eur gbp dk
      else none

/-- `parse_bog`: the export file modelled as its list of data rows
(header already discarded, each line already split by the CSV reader). -/
def parse_bog (file : List (List String)) : List Tx :=
  file.filterMap processRow

/-! ### Persisted state and the import command (`cmd_parse`) -/

/-- A row of `expenses.csv` (the Ledger). -/
structure LedgerRow where
  date : String
  description : String
  amount : ℚ
  currency : String
  category : String
deriving DecidableEq, Repr

/-- An entry of `flagged.json` (the Review Queue).  `category` is absent
until an approval sets it. -/
structure QItem where
  dk : String
  date : String
  description : String
  amount : ℚ
  currency : String
  flag : Option String
  merchant : Option String
  category : Option String
deriving DecidableEq, Repr, Inhabited

/-- The persisted stores: ledger (`expenses.csv` data rows), review
queue (`flagged.json`), learned merchant map (`merchant_map.json`),
dedup key set (`.dedup_keys`, as an insertion-ordered duplicate-free
list). -/
structure St where
  ledger : List LedgerRow
  queue : List QItem
  learned : List (String × String)
  dks : List String
deriving DecidableEq, Repr

/-- Python `round(x, 2)` on the amounts (modelled with rational
rounding; the half-to-even corner of binary floats is not exercised by
any claim). -/
def round2 (q : ℚ) : ℚ := ((round (q * 100) : ℤ) : ℚ) / 100

/-- The categorization pass of `cmd_parse` over one transaction:
cash/transfer flags and pre-assigned categories are left alone,
otherwise `categorize` fills `category` and sets `flag` to `"unknown"`
when the cascade found nothing. -/
def categorizeStep (learned : List (String × String)) (t : Tx) : Tx :=
  if t.flag = some "cash" ∨ t.flag = some "transfer" then t
  else if t.category.isSome then t
  else
    let r := categorize t.merchant t.mcc t.description learned
    { t with category := r.1, flag := if r.2 then none else some "unknown" }

/-- Projection of a flagged transaction into the review queue. -/
def mkQItem (t : Tx) : QItem :=
  { dk := t.dk, date := t.date, description := t.description,
    amount := t.amount, currency := t.currency, flag := t.flag,
    merchant := t.merchant, category := none }

/-- The `expenses.csv` row written for an auto-categorized transaction. -/
def mkLedgerRow (t : Tx) : LedgerRow :=
  { date := t.date, description := t.description,
    amount := round2 t.amount, currency := t.currency,
    category := t.category.getD "" }

/-- Stable insertion placing `t` before the first element with a
strictly larger date key (so `sortTxs`, a right fold of it, is the
stable sort `sorted(auto, key=lambda x: x["date"])`). -/
def insertTx (t : Tx) : List Tx → List Tx
  | [] => [t]
  | u :: us => if u.date < t.date then u :: insertTx t us else t :: u :: us

def sortTxs : List Tx → List Tx
  | [] => []
  | t :: ts => insertTx t (sortTxs ts)

/-- `set.add` iterated: append the keys not already present. -/
def addAll (l ks : List String) : List String :=
  ks.foldl (fun acc k => if acc.contains k then acc else acc ++ [k]) l

/-- The new transactions of an import: parsed rows whose dedup key is
not yet in the persisted key set. -/
def freshTxs (file : List (List String)) (st : St) : List Tx :=
  (parse_bog file).filter (fun t => !(st.dks.contains t.dk))

/-- The transactions an import produces after categorization — exactly
the records split into the ledger (`flag` absent) and the review queue
(`flag` present). -/
def importTxs (file : List (List String)) (st : St) : List Tx :=
  (freshTxs file st).map (categorizeStep st.learned)

/-- `cmd_parse`: dedup against the persisted key set, early return when
nothing is new, categorize, append auto rows (sorted by date) to the
ledger, merge flagged ones into the queue (dropping those whose dedup
key is already queued), record every processed transaction's dedup key. -/
def cmd_parse (file : List (List String)) (st : St) : St :=
  if (freshTxs file st).isEmpty then st
  else
    let txs := importTxs file st
    let auto := txs.filter (fun t => t.flag.isNone)
    let flagged := txs.filter (fun t => !t.flag.isNone)
    let existingDks := st.queue.map (fun i => i.dk)
    { ledger := st.ledger ++ (sortTxs auto).map mkLedgerRow,
      queue := st.queue ++
        (flagged.filter (fun t => !(existingDks.contains t.dk))).map mkQItem,
      learned := st.learned,
      dks := addAll st.dks (txs.map (fun t => t.dk)) }

/-! ### The approve command (`cmd_approve`) -/

/-- In-memory loop state of `cmd_approve`: the queue snapshot (whose
items are mutated in place when a category is assigned), the learned
map, the list of approved indices (`approved.append(item)` appends a
reference, modelled by the index into the final `items`), and the
`to_remove` index set. -/
structure ApSt where
  items : List QItem
  learned : List (String × String)
  approved : List Nat
  toRemove : List Nat
deriving DecidableEq, Repr

/-- `arg.split("=", 1)` plus `int(idx_s)`: `none` when `'='` is missing
or the index is not an integer (both are per-item warnings that leave
the state unchanged). -/
def parseInstr (arg : String) : Option (Int × String) :=
  if arg.data.contains '=' then
    match pyInt ⟨arg.data.takeWhile (fun c => !(c == '='))⟩ with
    | some i => some (i, ⟨(arg.data.dropWhile (fun c => !(c == '='))).drop 1⟩)
    | none => none
  else none

def addOnce (l : List Nat) (n : Nat) : List Nat :=
  if l.contains n then l else l ++ [n]

/-- `learned[key] = value` on the association-list model of the dict. -/
def insertLearned (m : List (String × String)) (k v : String) :
    List (String × String) :=
  if m.any (fun p => p.1 == k) then
    m.map (fun p => if p.1 == k then (k, v) else p)
  else m ++ [(k, v)]

/-- One iteration of the `cmd_approve` instruction loop. -/
def applyInstr (s : ApSt) (arg : String) : ApSt :=
  match parseInstr arg with
  | none => s
  | some (i, cat_s) =>
    let idx := i - 1
    if idx < 0 ∨ (s.items.length : Int) ≤ idx then s
    else
      let n := idx.toNat
      let cat := pyStrip cat_s
      if pyLower cat = "skip" then { s with toRemove := addOnce s.toRemove n }
      else
        match VALID_CATEGORIES.find? (fun c => pyLower c == pyLower cat) with
        | none => s
        | some matched =>
          let item := s.items.getD n default
          { items := s.items.set n { item with category := some matched },
            learned :=
              if strTruthy item.merchant then
                insertLearned s.learned (pyLower (item.merchant.getD "")) matched
              else s.learned,
            approved := s.approved ++ [n],
            toRemove := addOnce s.toRemove n }

/-- The `expenses.csv` row written for an approved queue item. -/
def apRow (item : QItem) : LedgerRow :=
  { date := item.date, description := item.description,
    amount := round2 item.amount, currency := item.currency,
    category := item.category.getD "" }

def filterIdxAux (rm : List Nat) (i : Nat) : List QItem → List QItem
  | [] => []
  | x :: xs =>
    if rm.contains i then filterIdxAux rm (i + 1) xs
    else x :: filterIdxAux rm (i + 1) xs

/-- `[item for i, item in enumerate(items) if i not in to_remove]`. -/
def filterIdx (l : List QItem) (rm : List Nat) : List QItem :=
  filterIdxAux rm 0 l

/-- `cmd_approve`: early return on an empty queue; otherwise fold the
instruction loop over one in-memory snapshot, then append the approved
rows to the ledger (each approved index is read from the final, mutated
snapshot), drop the removed indices from the queue, and persist the
learned map.  The dedup key set is untouched. -/
def cmd_approve (args : List String) (st : St) : St :=
  if st.queue.isEmpty then st
  else
    let fin := args.foldl applyInstr ⟨st.queue, st.learned, [], []⟩
    { ledger := st.ledger ++ fin.approved.map (fun n => apRow (fin.items.getD n default)),
      queue := filterIdx fin.items fin.toRemove,
      learned := fin.learned,
      dks := st.dks }

/-! ### Reporting currency conversion (`calc.py`, `to_usd`) -/

/-- The `rates` table of `accounts.json`: `RUB_USD` and `GEL_USD` are
accessed with `rates[...]` (required), `EUR_USD` and `GBP_USD` with
`rates.get(..., default)`. -/
structure Rates where
  RUB_USD : ℚ
  GEL_USD : ℚ
  EUR_USD : Option ℚ
  GBP_USD : Option ℚ
deriving DecidableEq, Repr

/-- `to_usd(amount, currency, rates)`: `none` models a raised error —
the `ValueError` for an unknown currency, or the `ZeroDivisionError`
when a divisor rate is zero. -/
def to_usd (amount : ℚ) (currency : String) (rates : Rates) : Option ℚ :=
  if currency = "USD" then some amount
  else if currency = "RUB" then
    if rates.RUB_USD = 0 then none else some (amount / rates.RUB_USD)
  else if currency = "GEL" then
    if rates.GEL_USD = 0 then none else some (amount / rates.GEL_USD)
  else if currency = "EUR" then some (amount * rates.EUR_USD.getD (27 / 25))
  else if currency = "GBP" then some (amount * rates.GBP_USD.getD (127 / 100))
  else none

/-! ### Specification predicates -/

/-- The categorized-xor-flagged invariant of a Transaction: either
auto-categorized (`flag` absent, `category` a member of the fixed
enumeration) or pending (`flag` one of cash/transfer/unknown,
`category` absent). -/
def CatXorFlag (t : Tx) : Prop :=
  (t.flag = none ∧ ∃ c, t.category = some c ∧ c ∈ VALID_CATEGORIES) ∨
  ((t.flag = some "cash" ∨ t.flag = some "transfer" ∨ t.flag = some "unknown") ∧
    t.category = none)

/-- An approve instruction that `cmd_approve` reports as a per-item
error: missing `=` or non-integer index, index outside the 1-based range
of a queue of length `qlen`, or a right-hand side that is neither
`skip` nor a case-insensitive member of the enumeration. -/
def InvalidInstr (bad : String) (qlen : Nat) : Prop :=
  parseInstr bad = none ∨
  (∃ i c, parseInstr bad = some (i, c) ∧ (i - 1 < 0 ∨ (qlen : Int) ≤ i - 1)) ∨
  (∃ i c, parseInstr bad = some (i, c) ∧ ¬(i - 1 < 0 ∨ (qlen : Int) ≤ i - 1) ∧
    pyLower (pyStrip c) ≠ "skip" ∧
    VALID_CATEGORIES.find? (fun cc => pyLower cc == pyLower (pyStrip c)) = none)

/-! ### Concrete states used by the witnesses -/

def emptySt : St := { ledger := [], queue := [], learned := [], dks := [] }

def qItemA : QItem :=
  { dk := "dkA", date := "2024-03-01", description := "Mystery Shop",
    amount := 10, currency := "GEL", flag := some "unknown",
    merchant := some "Mystery Shop", category := none }

def qItemB : QItem :=
  { dk := "dkB", date := "2024-03-02", description := "Cash (ATM: Vake)",
    amount := 50, currency := "GEL", flag := some "cash",
    merchant := none, category := none }

def queueSt : St := { ledger := [], queue := [qItemA, qItemB], learned := [], dks := [] }

/-- The transaction produced by the witness row of the dedup-key claim. -/
def txW : Tx :=
  { date := "2024-03-01", description := "Cash (ATM: ATM)", amount := 0,
    currency := "GEL", category := none, flag := some "cash",
    dk := "01/03/2024|Withdrawal of funds", merchant := none, mcc := none }

/-! ## Theorems -/

unseal Rat.add Rat.mul Rat.inv in
/-- Claim C9: European-format amount parsing maps `"1 234,50"` to
`1234.50` and the empty string to `0.0`. -/
theorem eu_amount_examples :
    parse_eu_amount "1 234,50" = some (2469 / 2 : ℚ) ∧
    parse_eu_amount "" = some 0 := by
  constructor <;> decide

/-- Claim C8: with nonzero `RUB_USD` and `GEL_USD` rate entries,
`to_usd` returns a numeric value exactly for the currencies USD, RUB,
GEL, EUR, GBP, and rejects (raises on) every other currency code. -/
theorem to_usd_known_currencies (a : ℚ) (c : String) (r : Rates)
    (h1 : r.RUB_USD ≠ 0) (h2 : r.GEL_USD ≠ 0) :
    (to_usd a c r).isSome = true ↔ c ∈ ["USD", "RUB", "GEL", "EUR", "GBP"] := by
  unfold to_usd
  split_ifs <;> simp_all

theorem startsWith_false_of_head {s p : String}
    (hs : s.data.headD ' ' ≠ p.data.headD ' ') (hp : p.data ≠ []) :
    startsWithStr s p = false := by
  unfold startsWithStr
  cases hpd : p.data with
  | nil => exact absurd hpd hp
  | cons c cs =>
    cases hsd : s.data with
    | nil => rfl
    | cons d ds =>
      rw [hpd, hsd] at hs
      simp only [List.headD] at hs
      have hcd : (c == d) = false := beq_eq_false_iff_ne.mpr (fun h => hs h.symm)
      simp [List.isPrefixOf, hcd]

theorem headD_of_startsWith {s p : String} (h : startsWithStr s p = true)
    (hp : p.data ≠ []) : s.data.headD ' ' = p.data.headD ' ' := by
  unfold startsWithStr at h
  cases hpd : p.data with
  | nil => exact absurd hpd hp
  | cons c cs =>
    cases hsd : s.data with
    | nil => rw [hpd, hsd] at h; simp [List.isPrefixOf] at h
    | cons d ds =>
      rw [hpd, hsd] at h
      simp only [List.isPrefixOf] at h
      have := (Bool.and_eq_true _ _).mp h |>.1
      simp [List.headD, eq_of_beq this]

theorem to_usd_known_currencies_witness :
    ((9 : ℚ) / 10 ≠ 0) ∧ ((27 : ℚ) / 10 ≠ 0) ∧
    ((to_usd 100 "GEL" { RUB_USD := 9 / 10, GEL_USD := 27 / 10,
                         EUR_USD := none, GBP_USD := none }).isSome = true ↔
      "GEL" ∈ ["USD", "RUB", "GEL", "EUR", "GBP"]) :=
  ⟨by norm_num, by norm_num,
    to_usd_known_currencies 100 "GEL" _ (by norm_num) (by norm_num)⟩

/-- Claim C5 counterexample: a `Withdrawal` row for which neither text
extractor matches and the GEL column is not negative is NOT dropped —
`parse_bog` still produces a (cash-flagged) Transaction, with the
fallback amount `0 GEL`. -/
theorem withdrawal_zero_fallback :
    extract_charged "Withdrawal of cash" = none ∧
    extract_leading "Withdrawal of cash" = none ∧
    colAmount ["01/03/2024", "Withdrawal of cash"] 3 = 0 ∧
    processRow ["01/03/2024", "Withdrawal of cash"] =
      some { date := "2024-03-01", description := "Cash (ATM: ATM)", amount := 0,
             currency := "GEL", category := none, flag := some "cash",
             dk := "01/03/2024|Withdrawal of cash", merchant := none, mcc := none } :=
  ⟨by decide, by decide, by decide, by decide⟩

/-- Claim C5 (amended): for rows classified as outgoing transfer or
payment, if no amount-resolution step yields a usable (truthy) value
and no relevant currency column is negative, the row is dropped and no
Transaction is produced.  (Cash-withdrawal rows are excluded: they fall
back to a `0 GEL` transaction instead of being dropped.) -/
theorem unresolved_amount_drops_row (row : List String)
    (h :
      (startsWithStr (pyStrip (row.getD 1 "")) "Outgoing Transfer" = true ∧
        truthyAmt (extract_leading (pyStrip (row.getD 1 ""))) = false ∧
        0 ≤ colAmount row 4 ∧ 0 ≤ colAmount row 3 ∧ 0 ≤ colAmount row 5) ∨
      (startsWithStr (pyStrip (row.getD 1 "")) "Payment" = true ∧
        truthyAmt (extract_charged (pyStrip (row.getD 1 ""))) = false ∧
        truthyAmt (extract_leading (pyStrip (row.getD 1 ""))) = false ∧
        0 ≤ colAmount row 3 ∧ 0 ≤ colAmount row 4 ∧ 0 ≤ colAmount row 5 ∧
        0 ≤ colAmount row 6)) :
    processRow row = none := by
  simp only [processRow]
  split
  · rfl
  · split
    · rfl
    · split
      · rfl
      · rcases h with ⟨hT, hE, hu, hg, he⟩ | ⟨hP, hc, hE, hg, hu, he, hb⟩
        · have hO : (pyStrip (row.getD 1 "")).data.headD ' ' = 'O' :=
            headD_of_startsWith hT (by decide)
          have hW : startsWithStr (pyStrip (row.getD 1 "")) "Withdrawal" = false :=
            startsWith_false_of_head (by rw [hO]; decide) (by decide)
          rw [hW]
          simp only [Bool.false_eq_true, if_false, hT, if_true]
          simp only [transferTx, hE, Bool.false_eq_true, if_false]
          rw [if_neg (not_lt.mpr hu), if_neg (not_lt.mpr hg), if_neg (not_lt.mpr he)]
        · have hO : (pyStrip (row.getD 1 "")).data.headD ' ' = 'P' :=
            headD_of_startsWith hP (by decide)
          have hW : startsWithStr (pyStrip (row.getD 1 "")) "Withdrawal" = false :=
            startsWith_false_of_head (by rw [hO]; decide) (by decide)
          have hTr : startsWithStr (pyStrip (row.getD 1 "")) "Outgoing Transfer" = false :=
            startsWith_false_of_head (by rw [hO]; decide) (by decide)
          rw [hW, hTr]
          simp only [Bool.false_eq_true, if_false, hP, if_true]
          simp only [paymentTx, hc, hE, Bool.false_eq_true, if_false]
          rw [if_neg (not_lt.mpr hg), if_neg (not_lt.mpr hu),
            if_neg (not_lt.mpr he), if_neg (not_lt.mpr hb)]

theorem unresolved_amount_drops_row_witness :
    (startsWithStr (pyStrip (["01/03/2024", "Payment to someone"].getD 1 "")) "Payment" = true ∧
      truthyAmt (extract_charged (pyStrip (["01/03/2024", "Payment to someone"].getD 1 ""))) = false ∧
      truthyAmt (extract_leading (pyStrip (["01/03/2024", "Payment to someone"].getD 1 ""))) = false ∧
      0 ≤ colAmount ["01/03/2024", "Payment to someone"] 3 ∧
      0 ≤ colAmount ["01/03/2024", "Payment to someone"] 4 ∧
      0 ≤ colAmount ["01/03/2024", "Payment to someone"] 5 ∧
      0 ≤ colAmount ["01/03/2024", "Payment to someone"] 6) ∧
    processRow ["01/03/2024", "Payment to someone"] = none := by
  refine ⟨⟨by decide, by decide, by decide, by decide, by decide, by decide, by decide⟩, ?_⟩
  exact unresolved_amount_drops_row _
    (Or.inr ⟨by decide, by decide, by decide, by decide, by decide, by decide, by decide⟩)

theorem mem_addAll_left {x : String} {ks l : List String} (h : x ∈ l) :
    x ∈ addAll l ks := by
  induction ks generalizing l with
  | nil => exact h
  | cons k ks ih =>
    show x ∈ addAll (if l.contains k then l else l ++ [k]) ks
    by_cases hc : l.contains k = true
    · rw [if_pos hc]; exact ih h
    · rw [if_neg hc]; exact ih (List.mem_append_left _ h)

theorem mem_addAll_right {x : String} {ks l : List String} (h : x ∈ ks) :
    x ∈ addAll l ks := by
  induction ks generalizing l with
  | nil => cases h
  | cons k ks ih =>
    show x ∈ addAll (if l.contains k then l else l ++ [k]) ks
    rcases List.mem_cons.mp h with rfl | hm
    · by_cases hc : l.contains x = true
      · rw [if_pos hc]; exact mem_addAll_left (by simpa using hc)
      · rw [if_neg hc]
        exact mem_addAll_left (List.mem_append_right _ (List.mem_singleton.mpr rfl))
    · by_cases hc : l.contains k = true
      · rw [if_pos hc]; exact ih hm
      · rw [if_neg hc]; exact ih hm

theorem categorizeStep_dk (learned : List (String × String)) (t : Tx) :
    (categorizeStep learned t).dk = t.dk := by
  unfold categorizeStep
  split
  · rfl
  · split
    · rfl
    · rfl

/-- Claim C3 counterexample: a processed row rejected by a skip marker
(here the `incoming transfer` tag) does NOT get its dedup key recorded:
importing a file holding only that row from the empty state records no
key at all. -/
theorem skip_row_key_not_recorded :
    should_skip "Incoming Transfer salary" = true ∧
    (cmd_parse [["01/03/2024", "Incoming Transfer salary"]] emptySt).dks = [] :=
  ⟨by decide, by decide⟩

/-- Claim C3 (amended): during an import invocation, every row that
yields a Transaction (cash, transfer or payment shape — flagged ones
included) has its dedup key recorded in the persisted set by the end of
the invocation; rows rejected as internal/non-expense, for a non-date
first field, or dropped for an unresolvable amount are not recorded. -/
theorem tx_keys_recorded (file : List (List String)) (st : St)
    (row : List String) (t : Tx) (hrow : row ∈ file) (ht : processRow row = some t) :
    t.dk ∈ (cmd_parse file st).dks := by
  have htx : t ∈ parse_bog file := List.mem_filterMap.mpr ⟨row, hrow, ht⟩
  by_cases hc : st.dks.contains t.dk = true
  · have hmem : t.dk ∈ st.dks := by simpa using hc
    by_cases he : (freshTxs file st).isEmpty = true
    · unfold cmd_parse
      rw [if_pos he]
      exact hmem
    · unfold cmd_parse
      rw [if_neg he]
      exact mem_addAll_left hmem
  · have hf : t ∈ freshTxs file st := by
      unfold freshTxs
      exact List.mem_filter.mpr ⟨htx, by simpa using hc⟩
    have he : ¬(freshTxs file st).isEmpty = true := by
      intro he
      rw [List.isEmpty_iff] at he
      rw [he] at hf
      cases hf
    unfold cmd_parse
    rw [if_neg he]
    refine mem_addAll_right ?_
    have hmap : t.dk ∈ (freshTxs file st).map (fun t => t.dk) :=
      List.mem_map.mpr ⟨t, hf, rfl⟩
    simpa [importTxs, List.map_map, Function.comp, categorizeStep_dk] using hmap

theorem tx_keys_recorded_witness :
    (["01/03/2024", "Withdrawal of funds"] ∈ [["01/03/2024", "Withdrawal of funds"]]) ∧
    processRow ["01/03/2024", "Withdrawal of funds"] = some txW ∧
    txW.dk ∈ (cmd_parse [["01/03/2024", "Withdrawal of funds"]] emptySt).dks :=
  ⟨by decide, by decide,
    tx_keys_recorded [["01/03/2024", "Withdrawal of funds"]] emptySt
      ["01/03/2024", "Withdrawal of funds"] txW (by decide) (by decide)⟩

theorem cmd_parse_nothing_new (file : List (List String)) (st : St)
    (h : (freshTxs file st).isEmpty = true) : cmd_parse file st = st := by
  unfold cmd_parse
  rw [if_pos h]

/-- Claim C2: import idempotence — running the import twice in
succession on the same file from any starting state leaves exactly the
state of running it once: the first run records every parsed row's
dedup key, so the second run finds nothing new and returns early. -/
theorem import_idempotent (file : List (List String)) (st : St) :
    cmd_parse file (cmd_parse file st) = cmd_parse file st := by
  by_cases he : (freshTxs file st).isEmpty = true
  · have h1 := cmd_parse_nothing_new file st he
    rw [h1, h1]
  · have hmaps : ((importTxs file st).map fun t => t.dk) =
        ((freshTxs file st).map fun t => t.dk) := by
      unfold importTxs
      rw [List.map_map]
      congr 1
      funext u
      exact categorizeStep_dk st.learned u
    have hdks : (cmd_parse file st).dks =
        addAll st.dks ((freshTxs file st).map (fun t => t.dk)) := by
      unfold cmd_parse
      rw [if_neg he]
      show addAll st.dks ((importTxs file st).map fun t => t.dk) = _
      rw [hmaps]
    have hall : ∀ t ∈ parse_bog file,
        ((cmd_parse file st).dks.contains t.dk) = true := by
      intro t ht
      have hmem : t.dk ∈ addAll st.dks ((freshTxs file st).map (fun t => t.dk)) := by
        by_cases hc : st.dks.contains t.dk = true
        · exact mem_addAll_left (by simpa using hc)
        · exact mem_addAll_right
            (List.mem_map.mpr ⟨t, List.mem_filter.mpr ⟨ht, by simpa using hc⟩, rfl⟩)
      rw [hdks]
      simpa using hmem
    have he2 : (freshTxs file (cmd_parse file st)).isEmpty = true := by
      unfold freshTxs
      rw [List.isEmpty_iff, List.filter_eq_nil_iff]
      intro t ht
      simpa using hall t ht
    exact cmd_parse_nothing_new file (cmd_parse file st) he2

theorem merchantKW_keys_valid : ∀ p ∈ MERCHANT_KW, p.1 ∈ VALID_CATEGORIES := by
  decide

theorem mccCat_values_valid : ∀ p ∈ MCC_CAT, p.2 ∈ VALID_CATEGORIES := by
  decide

theorem knownBeneficiaries_valid : ∀ p ∈ KNOWN_BENEFICIARIES, p.2 ∈ VALID_CATEGORIES := by
  decide

theorem lookupMap_mem {m : List (String × String)} {k v : String}
    (h : lookupMap m k = some v) : ∃ p ∈ m, p.2 = v := by
  unfold lookupMap at h
  cases hf : m.find? (fun p => p.1 == k) with
  | none => rw [hf] at h; cases h
  | some p =>
    rw [hf] at h
    exact ⟨p, List.mem_of_find?_eq_some hf, Option.some.inj h⟩

theorem withdrawalTx_fields (date_raw details : String) (gel : ℚ) (dk : String) :
    (withdrawalTx date_raw details gel dk).category = none ∧
    (withdrawalTx date_raw details gel dk).flag = some "cash" :=
  ⟨rfl, rfl⟩

theorem transferTx_shape {date_raw details : String} {usd gel eur : ℚ}
    {dk : String} {t : Tx}
    (h : transferTx date_raw details usd gel eur dk = some t) :
    (∃ p ∈ KNOWN_BENEFICIARIES, t.category = some p.2 ∧ t.flag = none) ∨
    (t.category = none ∧ t.flag = some "transfer") := by
  cases hf : KNOWN_BENEFICIARIES.find?
      (fun p => hasSub (pyLower (extract_beneficiary details)) p.1) with
  | some p =>
    simp only [transferTx, hf] at h
    split at h
    · cases h
    · obtain rfl := Option.some.inj h
      exact Or.inl ⟨p, List.mem_of_find?_eq_some hf, rfl, rfl⟩
  | none =>
    simp only [transferTx, hf] at h
    split at h
    · cases h
    · obtain rfl := Option.some.inj h
      exact Or.inr ⟨rfl, rfl⟩

theorem paymentTx_shape {date_raw details : String} {gel usd eur gbp : ℚ}
    {dk : String} {t : Tx}
    (h : paymentTx date_raw details gel usd eur gbp dk = some t) :
    t.category = none ∧ t.flag = none := by
  simp only [paymentTx] at h
  split at h
  · cases h
  · obtain rfl := Option.some.inj h
    exact ⟨rfl, rfl⟩

/-- Every transaction `parse_bog` produces is in one of four shapes:
cash-flagged, known-beneficiary transfer (pre-categorized), unknown
transfer (flagged), or payment (not yet categorized, unflagged). -/
theorem processRow_shape {row : List String} {t : Tx} (h : processRow row = some t) :
    (t.category = none ∧ t.flag = some "cash") ∨
    (∃ p ∈ KNOWN_BENEFICIARIES, t.category = some p.2 ∧ t.flag = none) ∨
    (t.category = none ∧ t.flag = some "transfer") ∨
    (t.category = none ∧ t.flag = none) := by
  simp only [processRow] at h
  split at h
  · cases h
  · split at h
    · cases h
    · split at h
      · cases h
      · split at h
        · obtain rfl := Option.some.inj h
          exact Or.inl ⟨rfl, rfl⟩
        · split at h
          · rcases transferTx_shape h with hk | hu
            · exact Or.inr (Or.inl hk)
            · exact Or.inr (Or.inr (Or.inl hu))
          · split at h
            · exact Or.inr (Or.inr (Or.inr (paymentTx_shape h)))
            · cases h

/-- Soundness of the rule cascade: an automatic result is always a
member of the fixed enumeration (given that the learned map only holds
enumeration members), and a non-automatic result carries no category. -/
theorem learnedScrutinee_valid {merchant : Option String} {c : String}
    {learned : List (String × String)}
    (h : ∀ p ∈ learned, p.2 ∈ VALID_CATEGORIES)
    (heq : (if strTruthy merchant = true then
        lookupMap learned (pyLower (merchant.getD "")) else none) = some c) :
    c ∈ VALID_CATEGORIES := by
  by_cases hm : strTruthy merchant = true
  · rw [if_pos hm] at heq
    obtain ⟨p, hp, hpv⟩ := lookupMap_mem heq
    exact hpv ▸ h p hp
  · rw [if_neg hm] at heq; cases heq

theorem kwScrutinee_valid {merchant : Option String} {p : String × List String}
    (heq : (if strTruthy merchant = true then
        MERCHANT_KW.find? (fun q => q.2.any fun kw => hasSub (pyLower (merchant.getD "")) kw)
      else none) = some p) :
    p.1 ∈ VALID_CATEGORIES := by
  by_cases hm : strTruthy merchant = true
  · rw [if_pos hm] at heq
    exact merchantKW_keys_valid p (List.mem_of_find?_eq_some heq)
  · rw [if_neg hm] at heq; cases heq

theorem mccScrutinee_valid {mcc : Option String} {c : String}
    (heq : (if strTruthy mcc = true then lookupMap MCC_CAT (mcc.getD "") else none) =
      some c) :
    c ∈ VALID_CATEGORIES := by
  by_cases hm : strTruthy mcc = true
  · rw [if_pos hm] at heq
    obtain ⟨p, hp, hpv⟩ := lookupMap_mem heq
    exact hpv ▸ mccCat_values_valid p hp
  · rw [if_neg hm] at heq; cases heq

theorem categorize_valid (merchant mcc : Option String) (details : String)
    (learned : List (String × String))
    (h : ∀ p ∈ learned, p.2 ∈ VALID_CATEGORIES) :
    ((categorize merchant mcc details learned).2 = true →
      ∃ c, (categorize merchant mcc details learned).1 = some c ∧
        c ∈ VALID_CATEGORIES) ∧
    ((categorize merchant mcc details learned).2 = false →
      (categorize merchant mcc details learned).1 = none) := by
  unfold categorize
  split
  · next c heq =>
    exact ⟨fun _ => ⟨c, rfl, learnedScrutinee_valid h heq⟩, fun hf => by simp at hf⟩
  · next heq =>
    cases hK : (if strTruthy merchant = true then
        MERCHANT_KW.find? (fun q => q.2.any fun kw => hasSub (pyLower (merchant.getD "")) kw)
      else none) with
    | some p =>
      simp only [hK]
      split_ifs
      · exact ⟨fun _ => ⟨"Other", rfl, by decide⟩, fun hf => by simp at hf⟩
      · exact ⟨fun _ => ⟨"Utilities", rfl, by decide⟩, fun hf => by simp at hf⟩
      · exact ⟨fun _ => ⟨"Utilities", rfl, by decide⟩, fun hf => by simp at hf⟩
      · exact ⟨fun _ => ⟨"Transport", rfl, by decide⟩, fun hf => by simp at hf⟩
      · exact ⟨fun _ => ⟨p.1, rfl, kwScrutinee_valid hK⟩, fun hf => by simp at hf⟩
    | none =>
      cases hM : (if strTruthy mcc = true then lookupMap MCC_CAT (mcc.getD "")
          else none) with
      | some c =>
        simp only [hK, hM]
        split_ifs
        · exact ⟨fun _ => ⟨"Other", rfl, by decide⟩, fun hf => by simp at hf⟩
        · exact ⟨fun _ => ⟨"Utilities", rfl, by decide⟩, fun hf => by simp at hf⟩
        · exact ⟨fun _ => ⟨"Utilities", rfl, by decide⟩, fun hf => by simp at hf⟩
        · exact ⟨fun _ => ⟨"Transport", rfl, by decide⟩, fun hf => by simp at hf⟩
        · exact ⟨fun _ => ⟨c, rfl, mccScrutinee_valid hM⟩, fun hf => by simp at hf⟩
      | none =>
        simp only [hK, hM]
        split_ifs
        · exact ⟨fun _ => ⟨"Other", rfl, by decide⟩, fun hf => by simp at hf⟩
        · exact ⟨fun _ => ⟨"Utilities", rfl, by decide⟩, fun hf => by simp at hf⟩
        · exact ⟨fun _ => ⟨"Utilities", rfl, by decide⟩, fun hf => by simp at hf⟩
        · exact ⟨fun _ => ⟨"Transport", rfl, by decide⟩, fun hf => by simp at hf⟩
        · exact ⟨fun ht => by simp at ht, fun _ => rfl⟩

/-- Claim C1: assuming every value of the learned-merchant map belongs
to the fixed 12-value enumeration, every transaction the import
operation produces after categorization — every record split into the
ledger or the review queue — is either categorized (flag absent,
category in the enumeration) or flagged cash/transfer/unknown with no
category; never both uncategorized and unflagged. -/
theorem import_cat_xor_flag (file : List (List String)) (st : St)
    (h : ∀ p ∈ st.learned, p.2 ∈ VALID_CATEGORIES) :
    ∀ t ∈ importTxs file st, CatXorFlag t := by
  intro t ht
  unfold importTxs at ht
  obtain ⟨u, hu, rfl⟩ := List.mem_map.mp ht
  have hu2 : u ∈ parse_bog file := by
    unfold freshTxs at hu
    exact (List.mem_filter.mp hu).1
  obtain ⟨row, _, hrow⟩ := List.mem_filterMap.mp hu2
  have hs := processRow_shape hrow
  unfold categorizeStep CatXorFlag
  rcases hs with ⟨hc, hf⟩ | ⟨p, hp, hc, hf⟩ | ⟨hc, hf⟩ | ⟨hc, hf⟩
  · rw [if_pos (Or.inl hf)]
    exact Or.inr ⟨Or.inl hf, hc⟩
  · rw [if_neg (by simp [hf]), if_pos (by simp [hc])]
    exact Or.inl ⟨hf, p.2, hc, knownBeneficiaries_valid p hp⟩
  · rw [if_pos (Or.inr hf)]
    exact Or.inr ⟨Or.inr (Or.inl hf), hc⟩
  · rw [if_neg (by simp [hf]), if_neg (by simp [hc])]
    have hcv := categorize_valid u.merchant u.mcc u.description st.learned h
    dsimp only
    cases hb : (categorize u.merchant u.mcc u.description st.learned).2 with
    | true =>
      obtain ⟨c, h1, h2⟩ := hcv.1 hb
      exact Or.inl ⟨by simp, c, h1, h2⟩
    | false =>
      exact Or.inr ⟨Or.inr (Or.inr (by simp)), hcv.2 hb⟩

theorem import_cat_xor_flag_witness :
    (∀ p ∈ emptySt.learned, p.2 ∈ VALID_CATEGORIES) ∧
    ∀ t ∈ importTxs
      [["01/03/2024",
        "Payment transaction amount and currency: 24.12 GEL; Merchant: SPAR REBI; MCC:5411"]]
      emptySt, CatXorFlag t :=
  ⟨by simp [emptySt], import_cat_xor_flag _ emptySt (by simp [emptySt])⟩

theorem filterIdxAux_single (n : Nat) (l : List QItem) : ∀ (i : Nat),
    filterIdxAux [n] i l = if n < i then l else l.eraseIdx (n - i) := by
  induction l with
  | nil => intro i; simp [filterIdxAux, List.eraseIdx]
  | cons x xs ih =>
    intro i
    unfold filterIdxAux
    by_cases hc : n = i
    · subst hc
      rw [if_pos (by simp), ih (n + 1), if_pos (by omega), if_neg (by omega),
        Nat.sub_self]
      rfl
    · rw [if_neg (by simp [beq_iff_eq]; omega), ih (i + 1)]
      by_cases hlt : n < i
      · rw [if_pos (by omega), if_pos hlt]
      · rw [if_neg (by omega), if_neg hlt,
          show n - i = (n - (i + 1)) + 1 from by omega]
        rfl

theorem filterIdx_single (l : List QItem) (n : Nat) :
    filterIdx l [n] = l.eraseIdx n := by
  unfold filterIdx
  rw [filterIdxAux_single n l 0, if_neg (by omega), Nat.sub_zero]

theorem eraseIdx_set (l : List QItem) (n : Nat) (x : QItem) :
    (l.set n x).eraseIdx n = l.eraseIdx n := by
  induction l generalizing n with
  | nil => rfl
  | cons a as ih =>
    cases n with
    | zero => rfl
    | succ m =>
      show a :: (as.set m x).eraseIdx m = a :: as.eraseIdx m
      rw [ih m]

theorem getD_set_self (l : List QItem) (n : Nat) (x d : QItem) (h : n < l.length) :
    (l.set n x).getD n d = x := by
  induction l generalizing n with
  | nil => simp at h
  | cons a as ih =>
    cases n with
    | zero => rfl
    | succ m =>
      have hm : m < as.length := by simpa using h
      show (as.set m x).getD m d = x
      exact ih m hm

theorem valid_not_skip : ∀ c ∈ VALID_CATEGORIES, ¬ pyLower c = "skip" := by
  decide

theorem cat_lower_not_skip {cs matched : String}
    (hf : VALID_CATEGORIES.find? (fun c => pyLower c == cs) = some matched) :
    ¬ cs = "skip" := by
  have hm := List.mem_of_find?_eq_some hf
  have hb := List.find?_some hf
  have he : pyLower matched = cs := eq_of_beq hb
  intro hcs
  rw [hcs] at he
  exact valid_not_skip matched hm he

theorem applyInstr_length (s : ApSt) (a : String) :
    (applyInstr s a).items.length = s.items.length := by
  simp only [applyInstr]
  split
  · rfl
  · split
    · rfl
    · split
      · rfl
      · split
        · rfl
        · simp

theorem foldl_applyInstr_length (args : List String) (s : ApSt) :
    (args.foldl applyInstr s).items.length = s.items.length := by
  induction args generalizing s with
  | nil => rfl
  | cons a as ih => rw [List.foldl_cons, ih, applyInstr_length]

theorem applyInstr_invalid (s : ApSt) (bad : String)
    (h : InvalidInstr bad s.items.length) : applyInstr s bad = s := by
  rcases h with h | ⟨i, c, hp, hcond⟩ | ⟨i, c, hp, hcond, hskip, hfind⟩
  · unfold applyInstr
    rw [h]
  · unfold applyInstr
    simp only [hp]
    rw [if_pos hcond]
  · unfold applyInstr
    simp only [hp]
    rw [if_neg hcond, if_neg hskip, hfind]

/-- Claim C6: an invalid approve instruction (missing or non-integer
index, index out of the 1-based range of the loaded queue snapshot, or a
right-hand side that is neither `skip` nor a case-insensitive member of
the enumeration) removes no queue item, writes no ledger row, adds no
learned-map entry, and the rest of the batch is processed as if the
instruction were absent. -/
theorem invalid_instruction_noop (st : St) (pre post : List String) (bad : String)
    (h : InvalidInstr bad st.queue.length) :
    cmd_approve (pre ++ bad :: post) st = cmd_approve (pre ++ post) st := by
  unfold cmd_approve
  split
  · rfl
  · have key : (pre ++ bad :: post).foldl applyInstr ⟨st.queue, st.learned, [], []⟩ =
        (pre ++ post).foldl applyInstr ⟨st.queue, st.learned, [], []⟩ := by
      rw [List.foldl_append, List.foldl_append, List.foldl_cons]
      congr 1
      apply applyInstr_invalid
      rw [foldl_applyInstr_length]
      exact h
    rw [key]

theorem invalid_instruction_noop_witness :
    InvalidInstr "5=Transport" queueSt.queue.length ∧
    cmd_approve (["1=Food"] ++ "5=Transport" :: ["2=skip"]) queueSt =
      cmd_approve (["1=Food"] ++ ["2=skip"]) queueSt := by
  have h : InvalidInstr "5=Transport" queueSt.queue.length :=
    Or.inr (Or.inl ⟨5, "Transport", by decide, by decide⟩)
  exact ⟨h, invalid_instruction_noop queueSt ["1=Food"] ["2=skip"] "5=Transport" h⟩

theorem applyInstr_skip (s : ApSt) (arg : String) (n : Nat) (catStr : String)
    (hn : n < s.items.length)
    (hp : parseInstr arg = some ((n : Int) + 1, catStr))
    (hskip : pyLower (pyStrip catStr) = "skip") :
    applyInstr s arg = { s with toRemove := addOnce s.toRemove n } := by
  unfold applyInstr
  simp only [hp]
  rw [if_neg (by omega),
    show ((n : Int) + 1 - 1).toNat = n from by omega, if_pos hskip]

theorem applyInstr_cat (s : ApSt) (arg : String) (n : Nat) (catStr matched : String)
    (hn : n < s.items.length)
    (hp : parseInstr arg = some ((n : Int) + 1, catStr))
    (hf : VALID_CATEGORIES.find? (fun c => pyLower c == pyLower (pyStrip catStr)) =
      some matched) :
    applyInstr s arg =
      { items := s.items.set n
          { s.items.getD n default with category := some matched },
        learned :=
          if strTruthy (s.items.getD n default).merchant = true then
            insertLearned s.learned
              (pyLower ((s.items.getD n default).merchant.getD "")) matched
          else s.learned,
        approved := s.approved ++ [n],
        toRemove := addOnce s.toRemove n } := by
  unfold applyInstr
  simp only [hp]
  rw [if_neg (by omega),
    show ((n : Int) + 1 - 1).toNat = n from by omega,
    if_neg (cat_lower_not_skip hf), hf]

theorem addOnce_nil (n : Nat) : addOnce [] n = [n] := rfl

/-- Claim C7: within an approve batch over the loaded snapshot, `i=skip`
at a valid 1-based index removes item `i` from the queue and writes
nothing to the ledger (and learns nothing); `i=C` with `C` a
case-insensitive match of the enumeration appends the item's
{date, description, amount, currency, category} to the ledger — the
category canonicalized to the enumeration's spelling, the amount
rounded to cents as the ledger stores it — and removes the item. -/
theorem approve_instruction_effects (st : St) (n : Nat) (arg catStr : String)
    (hn : n < st.queue.length)
    (hp : parseInstr arg = some ((n : Int) + 1, catStr)) :
    (pyLower (pyStrip catStr) = "skip" →
      (cmd_approve [arg] st).queue = st.queue.eraseIdx n ∧
      (cmd_approve [arg] st).ledger = st.ledger ∧
      (cmd_approve [arg] st).learned = st.learned) ∧
    (∀ matched,
      VALID_CATEGORIES.find? (fun c => pyLower c == pyLower (pyStrip catStr)) =
        some matched →
      (cmd_approve [arg] st).queue = st.queue.eraseIdx n ∧
      (cmd_approve [arg] st).ledger = st.ledger ++
        [{ date := (st.queue.getD n default).date,
           description := (st.queue.getD n default).description,
           amount := round2 (st.queue.getD n default).amount,
           currency := (st.queue.getD n default).currency,
           category := matched }]) := by
  have hne : ¬ st.queue.isEmpty = true := by
    cases hq : st.queue with
    | nil => rw [hq] at hn; simp at hn
    | cons a as => simp
  constructor
  · intro hskip
    have happ : cmd_approve [arg] st =
        { ledger := st.ledger, queue := st.queue.eraseIdx n,
          learned := st.learned, dks := st.dks } := by
      unfold cmd_approve
      rw [if_neg hne, List.foldl_cons, List.foldl_nil,
        applyInstr_skip _ arg n catStr hn hp hskip]
      dsimp only
      rw [addOnce_nil, filterIdx_single, List.map_nil, List.append_nil]
    rw [happ]
    exact ⟨rfl, rfl, rfl⟩
  · intro matched hf
    have happ : cmd_approve [arg] st =
        { ledger := st.ledger ++
            [apRow { st.queue.getD n default with category := some matched }],
          queue := st.queue.eraseIdx n,
          learned :=
            if strTruthy (st.queue.getD n default).merchant = true then
              insertLearned st.learned
                (pyLower ((st.queue.getD n default).merchant.getD "")) matched
            else st.learned,
          dks := st.dks } := by
      unfold cmd_approve
      rw [if_neg hne, List.foldl_cons, List.foldl_nil,
        applyInstr_cat _ arg n catStr matched hn hp hf]
      dsimp only
      rw [addOnce_nil, filterIdx_single, eraseIdx_set, List.nil_append,
        List.map_cons, List.map_nil, getD_set_self _ _ _ _ hn]
    rw [happ]
    exact ⟨rfl, rfl⟩

theorem approve_instruction_effects_witness :
    (0 < queueSt.queue.length) ∧
    parseInstr "1=food" = some ((0 : Int) + 1, "food") ∧
    ((pyLower (pyStrip "food") = "skip" →
      (cmd_approve ["1=food"] queueSt).queue = queueSt.queue.eraseIdx 0 ∧
      (cmd_approve ["1=food"] queueSt).ledger = queueSt.ledger ∧
      (cmd_approve ["1=food"] queueSt).learned = queueSt.learned) ∧
    (∀ matched,
      VALID_CATEGORIES.find? (fun c => pyLower c == pyLower (pyStrip "food")) =
        some matched →
      (cmd_approve ["1=food"] queueSt).queue = queueSt.queue.eraseIdx 0 ∧
      (cmd_approve ["1=food"] queueSt).ledger = queueSt.ledger ++
        [{ date := (queueSt.queue.getD 0 default).date,
           description := (queueSt.queue.getD 0 default).description,
           amount := round2 (queueSt.queue.getD 0 default).amount,
           currency := (queueSt.queue.getD 0 default).currency,
           category := matched }])) :=
  ⟨by decide, by decide,
    approve_instruction_effects queueSt 0 "1=food" "food" (by decide) (by decide)⟩

theorem addOnce_self (n : Nat) : addOnce [n] n = [n] := by
  simp [addOnce]

/-- Claim C10: when the same valid queue index is approved with a
category twice in one batch, the (aliased) item is appended to the
ledger once per instruction, both appended rows carry the category of
the LAST instruction, and the item is removed from the queue once. -/
theorem duplicate_index_double_append (st : St) (n : Nat)
    (a1 a2 c1 c2 m1 m2 : String)
    (hn : n < st.queue.length)
    (hp1 : parseInstr a1 = some ((n : Int) + 1, c1))
    (hp2 : parseInstr a2 = some ((n : Int) + 1, c2))
    (hf1 : VALID_CATEGORIES.find? (fun c => pyLower c == pyLower (pyStrip c1)) =
      some m1)
    (hf2 : VALID_CATEGORIES.find? (fun c => pyLower c == pyLower (pyStrip c2)) =
      some m2) :
    (cmd_approve [a1, a2] st).ledger = st.ledger ++
      [apRow { st.queue.getD n default with category := some m2 },
       apRow { st.queue.getD n default with category := some m2 }] ∧
    (cmd_approve [a1, a2] st).queue = st.queue.eraseIdx n := by
  have hne : ¬ st.queue.isEmpty = true := by
    cases hq : st.queue with
    | nil => rw [hq] at hn; simp at hn
    | cons a as => simp
  have hkey : ([a1, a2].foldl applyInstr ⟨st.queue, st.learned, [], []⟩).items =
        st.queue.set n { st.queue.getD n default with category := some m2 } ∧
      ([a1, a2].foldl applyInstr ⟨st.queue, st.learned, [], []⟩).approved = [n, n] ∧
      ([a1, a2].foldl applyInstr ⟨st.queue, st.learned, [], []⟩).toRemove = [n] := by
    rw [List.foldl_cons, List.foldl_cons, List.foldl_nil,
      applyInstr_cat _ a1 n c1 m1 hn hp1 hf1,
      applyInstr_cat _ a2 n c2 m2 (by simpa using hn) hp2 hf2]
    dsimp only
    rw [getD_set_self _ _ _ _ hn, List.set_set, addOnce_nil, addOnce_self]
    exact ⟨rfl, rfl, rfl⟩
  unfold cmd_approve
  rw [if_neg hne]
  constructor
  · show st.ledger ++ _ = _
    rw [hkey.1, hkey.2.1]
    rw [List.map_cons, List.map_cons, List.map_nil,
      getD_set_self _ _ _ _ hn]
  · show filterIdx _ _ = _
    rw [hkey.1, hkey.2.2, filterIdx_single, eraseIdx_set]

theorem duplicate_index_double_append_witness :
    (0 < queueSt.queue.length) ∧
    parseInstr "1=Food" = some ((0 : Int) + 1, "Food") ∧
    parseInstr "1=transport" = some ((0 : Int) + 1, "transport") ∧
    VALID_CATEGORIES.find? (fun c => pyLower c == pyLower (pyStrip "Food")) =
      some "Food" ∧
    VALID_CATEGORIES.find? (fun c => pyLower c == pyLower (pyStrip "transport")) =
      some "Transport" ∧
    ((cmd_approve ["1=Food", "1=transport"] queueSt).ledger = queueSt.ledger ++
      [apRow { queueSt.queue.getD 0 default with category := some "Transport" },
       apRow { queueSt.queue.getD 0 default with category := some "Transport" }] ∧
     (cmd_approve ["1=Food", "1=transport"] queueSt).queue =
       queueSt.queue.eraseIdx 0) :=
  ⟨by decide, by decide, by decide, by decide, by decide,
    duplicate_index_double_append queueSt 0 "1=Food" "1=transport" "Food" "transport"
      "Food" "Transport" (by decide) (by decide) (by decide) (by decide) (by decide)⟩

theorem lookup_map_replace (l : List (String × String)) (k v : String)
    (h : l.any (fun p => p.1 == k) = true) :
    lookupMap (l.map (fun p => if p.1 == k then (k, v) else p)) k = some v := by
  induction l with
  | nil => simp at h
  | cons a as ih =>
    rw [List.map_cons]
    by_cases ha : (a.1 == k) = true
    · rw [if_pos ha]
      unfold lookupMap
      rw [List.find?_cons_of_pos _ (by simp)]
      rfl
    · rw [if_neg ha]
      unfold lookupMap
      rw [List.find?_cons_of_neg _ (by simpa using ha)]
      have has : as.any (fun p => p.1 == k) = true := by
        rcases List.any_eq_true.mp h with ⟨p, hp, hpk⟩
        rcases List.mem_cons.mp hp with rfl | hmem
        · exact absurd hpk (by simpa using ha)
        · exact List.any_eq_true.mpr ⟨p, hmem, hpk⟩
      exact ih has

theorem lookup_append_single (l : List (String × String)) (k v : String)
    (h : ¬ l.any (fun p => p.1 == k) = true) :
    lookupMap (l ++ [(k, v)]) k = some v := by
  unfold lookupMap
  rw [List.find?_append]
  have hl : l.find? (fun p => p.1 == k) = none := by
    rw [List.find?_eq_none]
    intro p hp hpk
    exact h (List.any_eq_true.mpr ⟨p, hp, hpk⟩)
  rw [hl]
  simp [List.find?]

/-- A `dict` assignment always wins subsequent lookups of its key. -/
theorem lookupMap_insertLearned (l : List (String × String)) (k v : String) :
    lookupMap (insertLearned l k v) k = some v := by
  unfold insertLearned
  by_cases h : l.any (fun p => p.1 == k) = true
  · rw [if_pos h]
    exact lookup_map_replace l k v h
  · rw [if_neg h]
    exact lookup_append_single l k v h

theorem pyLower_ne_empty {s : String} (h : s ≠ "") : pyLower s ≠ "" := by
  intro he
  apply h
  have hd : s.data.map Char.toLower = [] := congrArg String.data he
  have h2 : s.data = [] := List.map_eq_nil_iff.mp hd
  cases s with
  | mk l =>
    simp only at h2
    rw [h2]

/-- Claim C4: after an approve instruction assigns category `matched`
to a queue item carrying (nonempty) merchant name `M`, every subsequent
`categorize` call whose merchant lower-cases to the same key returns
`(matched, automatic)`, short-circuiting at the learned-map step no
matter what description phrase, merchant keyword, or MCC entry would
say otherwise. -/
theorem learned_map_precedence (st : St) (n : Nat) (arg catStr M matched m2 : String)
    (mcc : Option String) (d : String)
    (hn : n < st.queue.length)
    (hp : parseInstr arg = some ((n : Int) + 1, catStr))
    (hM : (st.queue.getD n default).merchant = some M)
    (hM0 : M ≠ "")
    (hf : VALID_CATEGORIES.find? (fun c => pyLower c == pyLower (pyStrip catStr)) =
      some matched)
    (hm2 : pyLower m2 = pyLower M) :
    categorize (some m2) mcc d (cmd_approve [arg] st).learned =
      (some matched, true) := by
  have hne : ¬ st.queue.isEmpty = true := by
    cases hq : st.queue with
    | nil => rw [hq] at hn; simp at hn
    | cons a as => simp
  have hlearn : (cmd_approve [arg] st).learned =
      insertLearned st.learned (pyLower M) matched := by
    unfold cmd_approve
    rw [if_neg hne, List.foldl_cons, List.foldl_nil,
      applyInstr_cat _ arg n catStr matched hn hp hf]
    dsimp only
    rw [hM]
    rw [if_pos (by simp [strTruthy, hM0])]
    rfl
  have hm2ne : m2 ≠ "" := by
    intro he
    rw [he] at hm2
    exact pyLower_ne_empty hM0 (by simpa using hm2.symm)
  have hscrut : (if strTruthy (some m2) = true then
      lookupMap (cmd_approve [arg] st).learned (pyLower ((some m2).getD ""))
    else none) = some matched := by
    rw [if_pos (by simp [strTruthy, hm2ne])]
    show lookupMap (cmd_approve [arg] st).learned (pyLower m2) = some matched
    rw [hlearn, hm2]
    exact lookupMap_insertLearned st.learned (pyLower M) matched
  unfold categorize
  rw [hscrut]

theorem learned_map_precedence_witness :
    (0 < queueSt.queue.length) ∧
    parseInstr "1=food" = some ((0 : Int) + 1, "food") ∧
    (queueSt.queue.getD 0 default).merchant = some "Mystery Shop" ∧
    ("Mystery Shop" ≠ "") ∧
    VALID_CATEGORIES.find? (fun c => pyLower c == pyLower (pyStrip "food")) =
      some "Food" ∧
    pyLower "MYSTERY SHOP" = pyLower "Mystery Shop" ∧
    categorize (some "MYSTERY SHOP") (some "4121") "bolt taxi ride"
      (cmd_approve ["1=food"] queueSt).learned = (some "Food", true) :=
  ⟨by decide, by decide, by decide, by decide, by decide, by decide,
    learned_map_precedence queueSt 0 "1=food" "food" "Mystery Shop" "Food"
      "MYSTERY SHOP" (some "4121") "bolt taxi ride" (by decide) (by decide)
      (by decide) (by decide) (by decide) (by decide)⟩

end Finance
